import Mathlib

/-!
Verification development for gatonaranja (`main.go`).

The Go code is shallowly embedded here.  Go strings are modelled as lists of
characters; the external collaborators that the repository itself treats as
opaque (`net/url.Parse`, `os/exec`, `os.CreateTemp`, `os.Remove`) are modelled
as explicit oracles passed in as parameters, since their behaviour is not code
of this repository.  Machine integers are modelled by `Int`/`Nat`: the only
integer parsing in scope (`strconv.Atoi` on 1–2 digit segments) is range
checked against 11/59 immediately after parsing, so 64-bit overflow cannot
change any observable outcome modelled here (an overflowing literal has at
least 19 digits, hence value far above every range bound, and both the Go code
and the model reject it).
-/

/-- Go strings, modelled as lists of characters. -/
abbrev GoStr := List Char

/-- `strings.Split(s, sep)` for a single-character separator: splits on every
occurrence of `sep`; the empty string yields one empty field. -/
def splitOn (sep : Char) : GoStr → List GoStr
  | [] => [[]]
  | c :: rest =>
    match splitOn sep rest with
    | [] => [[]]
    | h :: t => if c = sep then [] :: h :: t else (c :: h) :: t

/-- ASCII digit test (`[\d]` in the source pattern). -/
def isDigit (c : Char) : Bool := decide ('0' ≤ c) && decide (c ≤ '9')

/-- Accumulating decimal parser; fails on any non-digit character. -/
def digitsToNatAux (acc : Nat) : GoStr → Option Nat
  | [] => some acc
  | c :: rest =>
    if isDigit c then digitsToNatAux (acc * 10 + (c.toNat - 48)) rest else none

/-- Value of a non-empty all-digit string; `none` otherwise. -/
def digitsToNat : GoStr → Option Nat
  | [] => none
  | c :: rest => digitsToNatAux 0 (c :: rest)

/-- `strconv.Atoi`: optional sign followed by at least one digit.
Overflow is not modelled (see the header comment). -/
def atoi (s : GoStr) : Option Int :=
  match s with
  | [] => none
  | c :: rest =>
    if c = '+' then (digitsToNat rest).map Int.ofNat
    else if c = '-' then (digitsToNat rest).map (fun n => -(n : Int))
    else (digitsToNat (c :: rest)).map Int.ofNat

/-- ASCII case folding of one character.  (Go's `strings.ToLower` folds full
Unicode; every input relevant to the command language is ASCII.) -/
def toLowerChar (c : Char) : Char :=
  if 'A' ≤ c ∧ c ≤ 'Z' then Char.ofNat (c.toNat + 32) else c

/-- `strings.ToLower`, ASCII fragment. -/
def toLower (s : GoStr) : GoStr := s.map toLowerChar

/-- `InvalidVideoSecond` from `main.go`. -/
def InvalidVideoSecond : Int := -1

/-- `Spot2Second` from `main.go`, translated clause by clause.  The source
splits the spot on `:` and then reads `parts[1]` as the seconds, `parts[0]`
as the minutes and, when exactly three parts are present, `parts[2]` as the
hours; extra parts beyond the third are ignored.  `none` models a non-nil
error (the accompanying Go value is always 0). -/
def Spot2Second (spot : GoStr) : Option Int :=
  let parts := splitOn ':' spot
  if parts.length < 2 then none
  else
    match atoi (parts.getD 1 []) with
    | none => none
    | some seconds =>
      if seconds > 59 then none
      else
        match atoi (parts.getD 0 []) with
        | none => none
        | some minutes =>
          if minutes > 59 then none
          else
            let second := seconds + minutes * 60
            if parts.length = 3 then
              match atoi (parts.getD 2 []) with
              | none => none
              | some hours =>
                if hours > 11 then none
                else some (second + hours * 60 * 60)
            else some second

/-- One or two digits: `[\d]{1,2}` from `VideoStartEndPattern`. -/
def d12 (s : GoStr) : Bool :=
  decide (s.length = 1 ∨ s.length = 2) && s.all isDigit

/-- Full match of one side of `VideoStartEndPattern`:
`([\d]{1,2}:)?[\d]{1,2}:[\d]{1,2}`.  A word of this sub-language contains no
`-` and its `:`-separated fields are exactly its 2 or 3 digit groups. -/
def spotPat (s : GoStr) : Bool :=
  match splitOn ':' s with
  | [a, b] => d12 a && d12 b
  | [a, b, c] => d12 a && d12 b && d12 c
  | _ => false

/-- Full match of `VideoStartEndPattern` against an entire string.  A word of
the pattern's language contains exactly one `-`, so membership is: splitting
on `-` yields exactly two spot-shaped halves. -/
def spanFullMatch (s : GoStr) : Bool :=
  match splitOn '-' s with
  | [a, b] => spotPat a && spotPat b
  | _ => false

/-- `VideoStartEndPattern.MatchString`: Go's `MatchString` reports whether the
pattern matches SOME substring of the input (the pattern is unanchored), i.e.
whether some contiguous substring is a word of the pattern's language. -/
def matchStringSpan (s : GoStr) : Bool :=
  (List.range (s.length + 1)).any fun n =>
    (List.range ((s.drop n).length + 1)).any fun m =>
      spanFullMatch ((s.drop n).take m)

/-- `ParseStartEndSeconds` from `main.go`: unanchored regex check, split on
`-` into exactly two spots, resolve both spots, and require start < end. -/
def ParseStartEndSeconds (span : GoStr) : Option (Int × Int) :=
  if matchStringSpan span = false then none
  else
    let parts := splitOn '-' span
    if parts.length ≠ 2 then none
    else
      match Spot2Second (parts.getD 0 []) with
      | none => none
      | some startSecond =>
        match Spot2Second (parts.getD 1 []) with
        | none => none
        | some endSecond =>
          if startSecond ≥ endSecond then none
          else some (startSecond, endSecond)

/-- Carrier for parsed `*url.URL` values.  The repository treats `net/url`
as an opaque collaborator; only success/failure and identity of the parsed
value matter to the command parser, so the carrier keeps the raw text. -/
structure GoURL where
  raw : GoStr
deriving DecidableEq

/-- The zero value `&url.URL{}` returned on every error path. -/
def emptyURL : GoURL := ⟨[]⟩

/-- The five Go return values of `LoadDownloadConfigFromMsg`;
`ok = true` models `err == nil`. -/
structure LoadResult where
  url : GoURL
  startSecond : Int
  endSecond : Int
  audioOnly : Bool
  ok : Bool
deriving DecidableEq

/-- The literal `audio` from `main.go`. -/
def audioWord : GoStr := "audio".data

/-- `LoadDownloadConfigFromMsg` from `main.go`, parameterised by an oracle
for `url.Parse` (external library code, not part of this repository). -/
def LoadDownloadConfigFromMsg (urlParse : GoStr → Option GoURL) (msg : GoStr) :
    LoadResult :=
  let args := splitOn ' ' msg
  match urlParse (args.getD 0 []) with
  | none => ⟨emptyURL, InvalidVideoSecond, InvalidVideoSecond, false, false⟩
  | some videoUrl =>
    if args.length = 1 then
      ⟨videoUrl, InvalidVideoSecond, InvalidVideoSecond, false, true⟩
    else
      let secondArg := toLower (args.getD 1 [])
      if secondArg = audioWord then
        ⟨videoUrl, InvalidVideoSecond, InvalidVideoSecond, true, true⟩
      else
        match ParseStartEndSeconds secondArg with
        | none => ⟨emptyURL, InvalidVideoSecond, InvalidVideoSecond, false, false⟩
        | some (startSecond, endSecond) =>
          if args.length = 2 then ⟨videoUrl, startSecond, endSecond, false, true⟩
          else if args.length > 3 then
            ⟨emptyURL, InvalidVideoSecond, InvalidVideoSecond, false, false⟩
          else if args.getD 2 [] ≠ audioWord then
            ⟨emptyURL, InvalidVideoSecond, InvalidVideoSecond, false, false⟩
          else ⟨videoUrl, startSecond, endSecond, true, true⟩

/-- A total `url.Parse` oracle used to instantiate theorems on concrete
commands; Go's `url.Parse` succeeds on every token appearing in them. -/
def urlParseAny : GoStr → Option GoURL := fun s => some ⟨s⟩

/-- One external command invocation (`exec.Command(path, args...)`). -/
structure GoCmd where
  path : GoStr
  args : List GoStr
deriving DecidableEq

/-- Oracle for the operating-system effects the pipeline performs:
`exec.LookPath`, `os.CreateTemp` (the returned fresh file name),
`os.Remove` success, and `Cmd.Run` success of an invocation. -/
structure GoEnv where
  lookPath : GoStr → Option GoStr
  createTemp : GoStr → Option GoStr
  removeOk : GoStr → Bool
  runOk : GoCmd → Bool

/-- `fmt.Sprint` on an integer. -/
def intToStr (i : Int) : GoStr := (toString i).data

/-- Helper for `filepath.Ext`: scan the reversed path, collecting characters
until the first `.` (extension found) or a `/` / the start (no extension). -/
def extRevScan (acc : GoStr) : GoStr → GoStr
  | [] => []
  | c :: rest =>
    if c = '/' then []
    else if c = '.' then '.' :: acc
    else extRevScan (c :: acc) rest

/-- `filepath.Ext`: the suffix starting at the final dot of the final
path element; empty if there is none. -/
def filepathExt (p : GoStr) : GoStr := extRevScan [] p.reverse

def ffmpegName : GoStr := "ffmpeg".data
def ytdlpName : GoStr := "yt-dlp".data
def cutSuffix : GoStr := "-cut".data
def mp3Ext : GoStr := ".mp3".data
def mp4Ext : GoStr := ".mp4".data
def flagSS : GoStr := "-ss".data
def flagI : GoStr := "-i".data
def flagT : GoStr := "-t".data
def flagX : GoStr := "-x".data
def flagAudioFormat : GoStr := "--audio-format".data
def mp3Word : GoStr := "mp3".data
def flagF : GoStr := "-f".data
def fmt18 : GoStr := "18".data
def flagO : GoStr := "-o".data
def tempPattern : GoStr := "gatonaranja.*.mp4".data

/-- The output filename `CutVideo` builds: input name with its extension
stripped, then `-cut`, then `.mp3` if audio-only else the original
extension. -/
def cutName (videoFilename : GoStr) (audioOnly : Bool) : GoStr :=
  let ext := filepathExt videoFilename
  let base := videoFilename.take (videoFilename.length - ext.length)
  base ++ cutSuffix ++ (if audioOnly then mp3Ext else ext)

/-- Result of `CutVideo`: the returned filename (`none` models a non-nil
error) together with the trace of subprocess invocations performed. -/
structure CutResult where
  out : Option GoStr
  cmds : List GoCmd
deriving DecidableEq

/-- `CutVideo` from `main.go`: look up `ffmpeg`, build the `-cut` output
name, and run `ffmpeg -ss start -i input -t (end-start) output`. -/
def CutVideo (env : GoEnv) (videoFilename : GoStr) (startSecond endSecond : Int)
    (audioOnly : Bool) : CutResult :=
  match env.lookPath ffmpegName with
  | none => ⟨none, []⟩
  | some ffmpegPath =>
    let finalVideoFilename := cutName videoFilename audioOnly
    let cutCmd : GoCmd :=
      ⟨ffmpegPath,
        [flagSS, intToStr startSecond, flagI, videoFilename, flagT,
          intToStr (endSecond - startSecond), finalVideoFilename]⟩
    if env.runOk cutCmd then ⟨some finalVideoFilename, [cutCmd]⟩
    else ⟨none, [cutCmd]⟩

/-- `BuildYtdlpCmd` from `main.go`: look up `yt-dlp`, build the argument
list (audio flags first when audio-only, then `-f 18 url`), allocate and
free a temp file name, rewrite its last character to `3` when audio-only,
and append `-o outputFilename`.  Returns tool path, output path, args. -/
def BuildYtdlpCmd (env : GoEnv) (videoUrl : GoStr) (audioOnly : Bool) :
    Option (GoStr × GoStr × List GoStr) :=
  match env.lookPath ytdlpName with
  | none => none
  | some ytdlpPath =>
    let ytdlpArgs := if audioOnly then [flagX, flagAudioFormat, mp3Word] else []
    let ytdlpArgs := ytdlpArgs ++ [flagF, fmt18, videoUrl]
    match env.createTemp tempPattern with
    | none => none
    | some tempName =>
      if env.removeOk tempName = false then none
      else
        let outputFilename :=
          if audioOnly then tempName.dropLast ++ ['3'] else tempName
        some (ytdlpPath, outputFilename, ytdlpArgs ++ [flagO, outputFilename])

/-- `DownloadVideo` from `main.go`: build the downloader invocation, run it,
then cut exactly when both span fields differ from `InvalidVideoSecond`.
Returns the final filename (`none` models a non-nil error) and the trace of
subprocess invocations. -/
def DownloadVideo (env : GoEnv) (videoUrl : GoStr) (startSecond endSecond : Int)
    (audioOnly : Bool) : Option GoStr × List GoCmd :=
  match BuildYtdlpCmd env videoUrl audioOnly with
  | none => (none, [])
  | some (ytdlpPath, videoFilename, ytdlpArgs) =>
    let downloadCmd : GoCmd := ⟨ytdlpPath, ytdlpArgs⟩
    if env.runOk downloadCmd = false then (none, [downloadCmd])
    else
      if startSecond ≠ InvalidVideoSecond ∧ endSecond ≠ InvalidVideoSecond then
        let c := CutVideo env videoFilename startSecond endSecond audioOnly
        (c.out, downloadCmd :: c.cmds)
      else (some videoFilename, [downloadCmd])

/-- `UserIsAuthorized` from `main.go`. -/
def UserIsAuthorized (userId : Int) (authorizedUserIds : List Int) : Bool :=
  if authorizedUserIds.length = 0 then true
  else authorizedUserIds.any fun allowedUserId => userId = allowedUserId

/-- A concrete tool path, used to instantiate theorems about the pipeline. -/
def toolPath : GoStr := "/bin/tool".data

/-- A concrete temp-file name of the shape `os.CreateTemp` produces for the
pattern `gatonaranja.*.mp4`. -/
def tmpName : GoStr := "/tmp/gatonaranja.x.mp4".data

/-- Stem of `tmpName` before its `.mp4` extension. -/
def tmpStem : GoStr := "/tmp/gatonaranja.x".data

/-- A concrete URL string, one of the spec's own examples. -/
def urlEx : GoStr := "https://x/y".data

/-- A concrete operating-system oracle where every lookup, temp-file
allocation, removal and subprocess run succeeds. -/
def sampleEnv : GoEnv :=
  ⟨fun _ => some toolPath, fun _ => some tmpName, fun _ => true, fun _ => true⟩

/-! ### Lemmas about the string primitives -/

lemma splitOn_ne_nil (c : Char) (s : GoStr) : splitOn c s ≠ [] := by
  cases s with
  | nil => simp [splitOn]
  | cons x rest =>
    simp only [splitOn]
    cases h : splitOn c rest with
    | nil => simp
    | cons hh tt => by_cases hx : x = c <;> simp [hx]

lemma splitOn_single {c : Char} {s : GoStr} (h : c ∉ s) : splitOn c s = [s] := by
  induction s with
  | nil => rfl
  | cons x rest ih =>
    have hx : x ≠ c := fun hEq => h (hEq ▸ List.mem_cons_self x rest)
    have hr : c ∉ rest := fun hm => h (List.mem_cons_of_mem _ hm)
    simp [splitOn, ih hr, hx]

lemma splitOn_append {c : Char} {a : GoStr} (b : GoStr) (h : c ∉ a) :
    splitOn c (a ++ c :: b) = a :: splitOn c b := by
  induction a with
  | nil =>
    simp only [List.nil_append, splitOn]
    cases hb : splitOn c b with
    | nil => exact absurd hb (splitOn_ne_nil c b)
    | cons hh tt => simp
  | cons x rest ih =>
    have hx : x ≠ c := fun hEq => h (hEq ▸ List.mem_cons_self x rest)
    have hr : c ∉ rest := fun hm => h (List.mem_cons_of_mem _ hm)
    rw [List.cons_append]
    simp only [splitOn]
    rw [ih hr]
    simp [hx]

lemma splitOn_parts {c : Char} {s p : GoStr} (hp : p ∈ splitOn c s) :
    c ∉ p ∧ ∀ x ∈ p, x ∈ s := by
  induction s generalizing p with
  | nil =>
    simp only [splitOn, List.mem_singleton] at hp
    subst hp; simp
  | cons y rest ih =>
    cases hsp : splitOn c rest with
    | nil => exact absurd hsp (splitOn_ne_nil c rest)
    | cons hh tt =>
      simp only [splitOn, hsp] at hp
      by_cases hy : y = c
      · rw [if_pos hy] at hp
        rcases List.mem_cons.mp hp with hp | hp
        · subst hp; simp
        · have h2 := ih (hsp ▸ hp)
          exact ⟨h2.1, fun x hx => List.mem_cons_of_mem _ (h2.2 x hx)⟩
      · rw [if_neg hy] at hp
        rcases List.mem_cons.mp hp with hp | hp
        · subst hp
          have hhh : hh ∈ splitOn c rest := hsp ▸ List.mem_cons_self hh tt
          have h2 := ih hhh
          constructor
          · intro hc
            rcases List.mem_cons.mp hc with hc | hc
            · exact hy hc.symm
            · exact h2.1 hc
          · intro x hx
            rcases List.mem_cons.mp hx with hx | hx
            · exact hx ▸ List.mem_cons_self y rest
            · exact List.mem_cons_of_mem _ (h2.2 x hx)
        · have h2 := ih (hsp ▸ List.mem_cons_of_mem hh hp)
          exact ⟨h2.1, fun x hx => List.mem_cons_of_mem _ (h2.2 x hx)⟩

lemma getD_mem_or_nil (l : List GoStr) (n : Nat) :
    l.getD n [] ∈ l ∨ l.getD n [] = [] := by
  by_cases h : n < l.length
  · left
    rw [List.getD_eq_getElem l [] h]
    exact List.getElem_mem h
  · right
    exact List.getD_eq_default l [] (Nat.le_of_not_lt h)

lemma atoi_nonneg {s : GoStr} (h : ('-') ∉ s) {i : Int} (ha : atoi s = some i) :
    0 ≤ i := by
  cases s with
  | nil => simp [atoi] at ha
  | cons c rest =>
    simp only [atoi] at ha
    by_cases h1 : c = '+'
    · rw [if_pos h1] at ha
      cases hd : digitsToNat rest with
      | none => rw [hd] at ha; simp at ha
      | some v =>
        rw [hd] at ha
        simp only [Option.map_some', Option.some.injEq] at ha
        subst ha
        exact Int.ofNat_nonneg v
    · have h2 : c ≠ '-' := fun hEq => h (hEq ▸ List.mem_cons_self c rest)
      rw [if_neg h1, if_neg h2] at ha
      cases hd : digitsToNat (c :: rest) with
      | none => rw [hd] at ha; simp at ha
      | some v =>
        rw [hd] at ha
        simp only [Option.map_some', Option.some.injEq] at ha
        subst ha
        exact Int.ofNat_nonneg v

lemma atoi_digits {t : GoStr} {v : Nat} (ht : t ≠ [])
    (hd : ∀ x ∈ t, isDigit x = true) (hv : digitsToNat t = some v) :
    atoi t = some (v : Int) := by
  cases t with
  | nil => exact absurd rfl ht
  | cons c rest =>
    have hc := hd c (List.mem_cons_self c rest)
    have h1 : c ≠ '+' := by
      intro hEq; rw [hEq] at hc
      exact absurd hc (by decide)
    have h2 : c ≠ '-' := by
      intro hEq; rw [hEq] at hc
      exact absurd hc (by decide)
    simp [atoi, if_neg h1, if_neg h2, hv]

lemma not_mem_of_all_digits {t : GoStr} (hd : ∀ x ∈ t, isDigit x = true)
    {c : Char} (hc : isDigit c = false) : c ∉ t := by
  intro hm
  rw [hd c hm] at hc
  exact Bool.noConfusion hc

lemma spanFullMatch_matchString {s : GoStr} (h : spanFullMatch s = true) :
    matchStringSpan s = true := by
  unfold matchStringSpan
  rw [List.any_eq_true]
  refine ⟨0, List.mem_range.mpr (Nat.succ_pos _), ?_⟩
  rw [List.any_eq_true]
  refine ⟨s.length, List.mem_range.mpr ?_, ?_⟩
  · simp
  · simpa using h

lemma Spot2Second_nonneg {spot : GoStr} (h : ('-') ∉ spot) {v : Int}
    (hs : Spot2Second spot = some v) : 0 ≤ v := by
  have hsub : ∀ n : Nat, ('-') ∉ (splitOn ':' spot).getD n [] := by
    intro n
    rcases getD_mem_or_nil (splitOn ':' spot) n with hm | hm
    · exact fun hx => h ((splitOn_parts hm).2 _ hx)
    · rw [hm]; exact List.not_mem_nil _
  unfold Spot2Second at hs
  dsimp only at hs
  split at hs
  · exact absurd hs (by simp)
  · split at hs
    · exact absurd hs (by simp)
    · rename_i seconds hsec
      split at hs
      · exact absurd hs (by simp)
      · split at hs
        · exact absurd hs (by simp)
        · rename_i minutes hmin
          split at hs
          · exact absurd hs (by simp)
          · have h0 : 0 ≤ seconds := atoi_nonneg (hsub 1) hsec
            have h1 : 0 ≤ minutes := atoi_nonneg (hsub 0) hmin
            split at hs
            · split at hs
              · exact absurd hs (by simp)
              · rename_i hours hhour
                split at hs
                · exact absurd hs (by simp)
                · have h2 : 0 ≤ hours := atoi_nonneg (hsub 2) hhour
                  simp only [Option.some.injEq] at hs
                  omega
            · simp only [Option.some.injEq] at hs
              omega

lemma ParseStartEndSeconds_bounds {t : GoStr} {s e : Int}
    (h : ParseStartEndSeconds t = some (s, e)) : 0 ≤ s ∧ s < e := by
  unfold ParseStartEndSeconds at h
  dsimp only at h
  split at h
  · exact absurd h (by simp)
  · split at h
    · exact absurd h (by simp)
    · split at h
      · exact absurd h (by simp)
      · rename_i s0 hs0
        split at h
        · exact absurd h (by simp)
        · rename_i e0 he0
          split at h
          · exact absurd h (by simp)
          · rename_i hge
            simp only [Option.some.injEq, Prod.mk.injEq] at h
            obtain ⟨hs1, he1⟩ := h
            subst hs1; subst he1
            have hmem : ('-') ∉ (splitOn '-' t).getD 0 [] := by
              rcases getD_mem_or_nil (splitOn '-' t) 0 with hm | hm
              · exact (splitOn_parts hm).1
              · rw [hm]; exact List.not_mem_nil _
            have h0 := Spot2Second_nonneg hmem hs0
            exact ⟨h0, by omega⟩

lemma Spot2Second_two_seg {m s : GoStr} {vm vs : Nat}
    (hm : m.length = 1 ∨ m.length = 2) (hmd : ∀ x ∈ m, isDigit x = true)
    (hmv : digitsToNat m = some vm)
    (hs : s.length = 1 ∨ s.length = 2) (hsd : ∀ x ∈ s, isDigit x = true)
    (hsv : digitsToNat s = some vs)
    (hm59 : vm ≤ 59) (hs59 : vs ≤ 59) :
    Spot2Second (m ++ ':' :: s) = some ((vs : Int) + (vm : Int) * 60) := by
  have hmne : m ≠ [] := by
    rcases hm with h1 | h1 <;> exact List.ne_nil_of_length_pos (by omega)
  have hsne : s ≠ [] := by
    rcases hs with h1 | h1 <;> exact List.ne_nil_of_length_pos (by omega)
  have hcm : (':') ∉ m := not_mem_of_all_digits hmd (by decide)
  have hcs : (':') ∉ s := not_mem_of_all_digits hsd (by decide)
  have hsplit : splitOn ':' (m ++ ':' :: s) = [m, s] := by
    rw [splitOn_append s hcm, splitOn_single hcs]
  unfold Spot2Second
  dsimp only
  rw [hsplit]
  simp only [List.length_cons, List.length_nil, List.getD_cons_succ,
    List.getD_cons_zero, atoi_digits hsne hsd hsv, atoi_digits hmne hmd hmv]
  rw [if_neg (by omega), if_neg (by omega), if_neg (by omega), if_neg (by omega)]

lemma d12_true {t : GoStr} (h1 : t.length = 1 ∨ t.length = 2)
    (h2 : ∀ x ∈ t, isDigit x = true) : d12 t = true := by
  simp only [d12, Bool.and_eq_true, decide_eq_true_eq, List.all_eq_true]
  exact ⟨h1, h2⟩

lemma spotPat_two_seg {m s : GoStr} (hm : m.length = 1 ∨ m.length = 2)
    (hmd : ∀ x ∈ m, isDigit x = true) (hs : s.length = 1 ∨ s.length = 2)
    (hsd : ∀ x ∈ s, isDigit x = true) :
    spotPat (m ++ ':' :: s) = true := by
  have hcm : (':') ∉ m := not_mem_of_all_digits hmd (by decide)
  have hcs : (':') ∉ s := not_mem_of_all_digits hsd (by decide)
  have hsplit : splitOn ':' (m ++ ':' :: s) = [m, s] := by
    rw [splitOn_append s hcm, splitOn_single hcs]
  unfold spotPat
  rw [hsplit]
  simp [d12_true hm hmd, d12_true hs hsd]

lemma spanFullMatch_pair {spot1 spot2 : GoStr} (h1 : ('-') ∉ spot1)
    (h2 : ('-') ∉ spot2) (hp1 : spotPat spot1 = true) (hp2 : spotPat spot2 = true) :
    spanFullMatch (spot1 ++ '-' :: spot2) = true := by
  unfold spanFullMatch
  rw [splitOn_append spot2 h1, splitOn_single h2]
  simp [hp1, hp2]

/-! ### Helper lemmas about the command parser and pipeline -/

lemma Load_audio_shortcut (urlParse : GoStr → Option GoURL) (msg : GoStr)
    (u : GoURL) (h2 : 2 ≤ (splitOn ' ' msg).length)
    (haud : toLower ((splitOn ' ' msg).getD 1 []) = audioWord)
    (hurl : urlParse ((splitOn ' ' msg).getD 0 []) = some u) :
    LoadDownloadConfigFromMsg urlParse msg = ⟨u, -1, -1, true, true⟩ := by
  unfold LoadDownloadConfigFromMsg
  dsimp only
  rw [hurl]
  dsimp only
  rw [if_neg (by omega), if_pos haud]
  rfl

lemma Load_toomany_span (urlParse : GoStr → Option GoURL) (msg : GoStr)
    (h3 : 3 < (splitOn ' ' msg).length)
    (hnaud : toLower ((splitOn ' ' msg).getD 1 []) ≠ audioWord) :
    (LoadDownloadConfigFromMsg urlParse msg).ok = false := by
  unfold LoadDownloadConfigFromMsg
  dsimp only
  cases hurl : urlParse ((splitOn ' ' msg).getD 0 []) with
  | none => rfl
  | some u =>
    dsimp only
    rw [if_neg (by omega), if_neg hnaud]
    cases hp : ParseStartEndSeconds (toLower ((splitOn ' ' msg).getD 1 [])) with
    | none => rfl
    | some pe =>
      obtain ⟨s, e⟩ := pe
      dsimp only
      rw [if_neg (by omega), if_pos (by omega)]

lemma CutVideo_cmds (env : GoEnv) (f : GoStr) (s e : Int) (ao : Bool) (fp : GoStr)
    (hfp : env.lookPath ffmpegName = some fp) :
    (CutVideo env f s e ao).cmds =
      [⟨fp, [flagSS, intToStr s, flagI, f, flagT, intToStr (e - s), cutName f ao]⟩] := by
  unfold CutVideo
  rw [hfp]
  dsimp only
  split <;> rfl

/-! ### Claim theorems -/

/-- C1: the claim says a three-segment spot `H:M:S` with `H ≤ 11` is accepted
with total seconds `S + M*60 + H*3600` and rejected when `H ≥ 12`.  The code
instead reads the LAST segment as the hours and the FIRST as the minutes:
the valid spot `0:00:12` (twelve seconds) is rejected, and `1:02:03` yields
`2 + 1*60 + 3*3600 = 10862` instead of `3 + 2*60 + 1*3600 = 3723`; the span
`1:00:00-2:00:00` parses to `(60, 120)` instead of `(3600, 7200)`. -/
theorem c1_hours_segment_divergence :
    ParseStartEndSeconds ("0:00:12-0:00:13").data = none ∧
    Spot2Second ("1:02:03").data = some 10862 ∧
    ParseStartEndSeconds ("1:00:00-2:00:00").data = some (60, 120) := by decide

/-- C2 counterexample: the five-token line `u audio x y z`, whose second token
is `audio`, is accepted by `LoadDownloadConfigFromMsg` (with `audioOnly`),
refuting both "succeeds only with exactly 2 tokens" and "more than 3 tokens
always fails". -/
theorem c2_counterexample_audio_ignores_count :
    (LoadDownloadConfigFromMsg urlParseAny ("u audio x y z").data).ok = true ∧
    (LoadDownloadConfigFromMsg urlParseAny ("u audio x y z").data).audioOnly = true ∧
    (splitOn ' ' (("u audio x y z").data)).length = 5 ∧
    toLower ((splitOn ' ' (("u audio x y z").data)).getD 1 []) = audioWord := by decide

/-- C2 amended: when the second token lowercases to `audio` and the first
token parses as a URL, the command succeeds with `audioOnly = true` and no
span REGARDLESS of the total token count; the more-than-3-tokens failure
applies only when the second token is not the audio word. -/
theorem c2_audio_any_count_span_limit (urlParse : GoStr → Option GoURL) (msg : GoStr) :
    (∀ u : GoURL, 2 ≤ (splitOn ' ' msg).length →
      toLower ((splitOn ' ' msg).getD 1 []) = audioWord →
      urlParse ((splitOn ' ' msg).getD 0 []) = some u →
      LoadDownloadConfigFromMsg urlParse msg = ⟨u, -1, -1, true, true⟩) ∧
    (3 < (splitOn ' ' msg).length →
      toLower ((splitOn ' ' msg).getD 1 []) ≠ audioWord →
      (LoadDownloadConfigFromMsg urlParse msg).ok = false) :=
  ⟨fun u h2 haud hurl => Load_audio_shortcut urlParse msg u h2 haud hurl,
   fun h3 hnaud => Load_toomany_span urlParse msg h3 hnaud⟩

/-- Witness for C2: a four-token audio command succeeds; a five-token
non-audio command fails. -/
theorem c2_witness :
    LoadDownloadConfigFromMsg urlParseAny ("w AUDIO a b").data =
      ⟨⟨("w").data⟩, -1, -1, true, true⟩ ∧
    (LoadDownloadConfigFromMsg urlParseAny ("w aa bb cc dd").data).ok = false :=
  ⟨(c2_audio_any_count_span_limit urlParseAny (("w AUDIO a b").data)).1
      ⟨("w").data⟩ (by decide) (by decide) (by decide),
   (c2_audio_any_count_span_limit urlParseAny (("w aa bb cc dd").data)).2
      (by decide) (by decide)⟩

/-- C3 counterexample: `1:1:1:1-2:2` is accepted by `ParseStartEndSeconds`
(the unanchored `MatchString` finds the substring `1:1:1-2:2`, and the extra
`:`-segments are ignored by `Spot2Second`), yet the string does NOT match the
span grammar in its entirety, refuting "only strings of the shape
`[[H:]M:]S-[[H:]M:]S` are accepted". -/
theorem c3_counterexample_not_entire_match :
    ParseStartEndSeconds ("1:1:1:1-2:2").data = some (61, 122) ∧
    spanFullMatch ("1:1:1:1-2:2").data = false := by decide

/-- C3 amended: acceptance requires the pattern to match SOME contiguous
substring of the input (Go's `MatchString` is unanchored): every input with
no matching substring is rejected, and every accepted input has a matching
substring. -/
theorem c3_accepted_iff_substring_match (t : GoStr) :
    (matchStringSpan t = false → ParseStartEndSeconds t = none) ∧
    (∀ v : Int × Int, ParseStartEndSeconds t = some v → matchStringSpan t = true) := by
  constructor
  · intro h
    unfold ParseStartEndSeconds
    rw [if_pos h]
  · intro v hv
    cases hb : matchStringSpan t with
    | false =>
      unfold ParseStartEndSeconds at hv
      rw [if_pos hb] at hv
      exact Option.noConfusion hv
    | true => rfl

/-- Witness for C3: `hello` contains no substring matching the pattern and is
rejected. -/
theorem c3_witness : ParseStartEndSeconds ("hello").data = none :=
  (c3_accepted_iff_substring_match (("hello").data)).1 (by decide)

/-- C4: when the downloader plan succeeds and the download command runs
successfully, a request without a span (both fields `-1`) never invokes the
cutter and returns the downloaded path verbatim, while a request with a span
invokes the cutter exactly once, with the downloaded file as the `-i` input
and `-t` duration `endSecond - startSecond`. -/
theorem c4_orchestration (env : GoEnv) (videoUrl : GoStr) (s e : Int) (ao : Bool)
    (p f fp : GoStr) (a : List GoStr)
    (hb : BuildYtdlpCmd env videoUrl ao = some (p, f, a))
    (hr : env.runOk ⟨p, a⟩ = true) :
    (s = -1 ∧ e = -1 → DownloadVideo env videoUrl s e ao = (some f, [⟨p, a⟩])) ∧
    (s ≠ -1 → e ≠ -1 → env.lookPath ffmpegName = some fp →
      DownloadVideo env videoUrl s e ao =
        ((CutVideo env f s e ao).out,
          [⟨p, a⟩, ⟨fp, [flagSS, intToStr s, flagI, f, flagT, intToStr (e - s),
            cutName f ao]⟩])) := by
  constructor
  · rintro ⟨hs, he⟩
    unfold DownloadVideo
    rw [hb]
    dsimp only
    rw [hr, if_neg (by decide), if_neg (by simp [InvalidVideoSecond, hs])]
  · intro hs he hfp
    unfold DownloadVideo
    rw [hb]
    dsimp only
    rw [hr, if_neg (by decide), if_pos ⟨hs, he⟩, CutVideo_cmds env f s e ao fp hfp]

/-- Witness for C4: in a concrete all-succeeding environment, a spanless
request returns the downloaded file with only the download in the trace, and
a request for seconds 10–20 runs the cutter with `-i` the downloaded file and
`-t 10`. -/
theorem c4_witness :
    DownloadVideo sampleEnv urlEx (-1) (-1) false =
      (some tmpName, [⟨toolPath, [flagF, fmt18, urlEx, flagO, tmpName]⟩]) ∧
    DownloadVideo sampleEnv urlEx 10 20 false =
      ((CutVideo sampleEnv tmpName 10 20 false).out,
        [⟨toolPath, [flagF, fmt18, urlEx, flagO, tmpName]⟩,
         ⟨toolPath, [flagSS, intToStr 10, flagI, tmpName, flagT, intToStr 10,
           cutName tmpName false]⟩]) := by
  have h1 := c4_orchestration sampleEnv urlEx (-1) (-1) false toolPath tmpName
    toolPath [flagF, fmt18, urlEx, flagO, tmpName] (by decide) (by decide)
  have h2 := c4_orchestration sampleEnv urlEx 10 20 false toolPath tmpName
    toolPath [flagF, fmt18, urlEx, flagO, tmpName] (by decide) (by decide)
  exact ⟨h1.1 ⟨rfl, rfl⟩, h2.2 (by decide) (by decide) rfl⟩

/-- C5: every two-segment span `M:S-M:S` whose four segments are 1–2 digit
numerals with values at most 59 and whose start `M*60+S` is below its end is
accepted, and each side evaluates to `M*60 + S` seconds. -/
theorem c5_two_segment_span_values (m1 s1 m2 s2 : GoStr) (vm1 vs1 vm2 vs2 : Nat)
    (hm1 : m1.length = 1 ∨ m1.length = 2) (hm1d : ∀ x ∈ m1, isDigit x = true)
    (hm1v : digitsToNat m1 = some vm1) (hm1r : vm1 ≤ 59)
    (hs1 : s1.length = 1 ∨ s1.length = 2) (hs1d : ∀ x ∈ s1, isDigit x = true)
    (hs1v : digitsToNat s1 = some vs1) (hs1r : vs1 ≤ 59)
    (hm2 : m2.length = 1 ∨ m2.length = 2) (hm2d : ∀ x ∈ m2, isDigit x = true)
    (hm2v : digitsToNat m2 = some vm2) (hm2r : vm2 ≤ 59)
    (hs2 : s2.length = 1 ∨ s2.length = 2) (hs2d : ∀ x ∈ s2, isDigit x = true)
    (hs2v : digitsToNat s2 = some vs2) (hs2r : vs2 ≤ 59)
    (hlt : vm1 * 60 + vs1 < vm2 * 60 + vs2) :
    ParseStartEndSeconds ((m1 ++ ':' :: s1) ++ '-' :: (m2 ++ ':' :: s2)) =
      some (((vm1 * 60 + vs1 : Nat) : Int), ((vm2 * 60 + vs2 : Nat) : Int)) := by
  have hd1 : ('-') ∉ m1 ++ ':' :: s1 := by
    intro hx
    rcases List.mem_append.mp hx with h | h
    · exact not_mem_of_all_digits hm1d (by decide) h
    · rcases List.mem_cons.mp h with h | h
      · exact absurd h (by decide)
      · exact not_mem_of_all_digits hs1d (by decide) h
  have hd2 : ('-') ∉ m2 ++ ':' :: s2 := by
    intro hx
    rcases List.mem_append.mp hx with h | h
    · exact not_mem_of_all_digits hm2d (by decide) h
    · rcases List.mem_cons.mp h with h | h
      · exact absurd h (by decide)
      · exact not_mem_of_all_digits hs2d (by decide) h
  have hfull : spanFullMatch ((m1 ++ ':' :: s1) ++ '-' :: (m2 ++ ':' :: s2)) = true :=
    spanFullMatch_pair hd1 hd2 (spotPat_two_seg hm1 hm1d hs1 hs1d)
      (spotPat_two_seg hm2 hm2d hs2 hs2d)
  have hmatch := spanFullMatch_matchString hfull
  have hsplit : splitOn '-' ((m1 ++ ':' :: s1) ++ '-' :: (m2 ++ ':' :: s2)) =
      [m1 ++ ':' :: s1, m2 ++ ':' :: s2] := by
    rw [splitOn_append _ hd1, splitOn_single hd2]
  unfold ParseStartEndSeconds
  dsimp only
  rw [hmatch, if_neg (by decide), hsplit]
  simp only [List.length_cons, List.length_nil, List.getD_cons_zero, List.getD_cons_succ,
    Spot2Second_two_seg hm1 hm1d hm1v hs1 hs1d hs1v hm1r hs1r,
    Spot2Second_two_seg hm2 hm2d hm2v hs2 hs2d hs2v hm2r hs2r]
  rw [if_neg (by omega), if_neg (by omega)]
  simp only [Option.some.injEq, Prod.mk.injEq]
  constructor <;> push_cast <;> ring

/-- Witness for C5: the spec's own example `0:10-0:51` parses to `(10, 51)`. -/
theorem c5_witness :
    ParseStartEndSeconds ((['0'] ++ ':' :: ['1', '0']) ++ '-' :: (['0'] ++ ':' :: ['5', '1'])) =
      some (10, 51) := by
  have h := c5_two_segment_span_values ['0'] ['1', '0'] ['0'] ['5', '1'] 0 10 0 51
    (by decide) (by decide) (by decide) (by decide)
    (by decide) (by decide) (by decide) (by decide)
    (by decide) (by decide) (by decide) (by decide)
    (by decide) (by decide) (by decide) (by decide)
    (by decide)
  simpa using h

/-- C6: whenever the span splits into two spots that both resolve, a start
second greater than or equal to the end second is rejected; in particular
`1:10-1:05` and `1:10-1:10` are both rejected. -/
theorem c6_reversed_or_equal_rejected :
    (∀ (t a b : GoStr) (x y : Int), splitOn '-' t = [a, b] →
      Spot2Second a = some x → Spot2Second b = some y → x ≥ y →
      ParseStartEndSeconds t = none) ∧
    ParseStartEndSeconds ("1:10-1:05").data = none ∧
    ParseStartEndSeconds ("1:10-1:10").data = none := by
  refine ⟨?_, by decide, by decide⟩
  intro t a b x y hsplit ha hb hxy
  unfold ParseStartEndSeconds
  dsimp only
  split
  · rfl
  · rw [hsplit]
    simp only [List.length_cons, List.length_nil, List.getD_cons_zero,
      List.getD_cons_succ, ha, hb]
    rw [if_neg (by omega), if_pos hxy]

/-- Witness for C6: `2:00-1:00` (reversed) is rejected. -/
theorem c6_witness : ParseStartEndSeconds ("2:00-1:00").data = none :=
  c6_reversed_or_equal_rejected.1 (("2:00-1:00").data) (("2:00").data)
    (("1:00").data) 120 60 (by decide) (by decide) (by decide) (by decide)

/-- C7: every parse result is either the error tuple with the empty URL,
both span fields `-1` and `audioOnly = false`, or a success whose span fields
are either both `-1` or both valid with `0 ≤ start < end`; no partially
populated request is ever returned. -/
theorem c7_result_invariant (urlParse : GoStr → Option GoURL) (msg : GoStr) :
    LoadDownloadConfigFromMsg urlParse msg = ⟨emptyURL, -1, -1, false, false⟩ ∨
      ((LoadDownloadConfigFromMsg urlParse msg).ok = true ∧
        (((LoadDownloadConfigFromMsg urlParse msg).startSecond = -1 ∧
            (LoadDownloadConfigFromMsg urlParse msg).endSecond = -1) ∨
          (0 ≤ (LoadDownloadConfigFromMsg urlParse msg).startSecond ∧
            (LoadDownloadConfigFromMsg urlParse msg).startSecond <
              (LoadDownloadConfigFromMsg urlParse msg).endSecond))) := by
  unfold LoadDownloadConfigFromMsg
  dsimp only
  cases hurl : urlParse ((splitOn ' ' msg).getD 0 []) with
  | none => left; rfl
  | some u =>
    dsimp only
    by_cases h1 : (splitOn ' ' msg).length = 1
    · rw [if_pos h1]; right; exact ⟨rfl, Or.inl ⟨rfl, rfl⟩⟩
    · rw [if_neg h1]
      by_cases h2 : toLower ((splitOn ' ' msg).getD 1 []) = audioWord
      · rw [if_pos h2]; right; exact ⟨rfl, Or.inl ⟨rfl, rfl⟩⟩
      · rw [if_neg h2]
        cases hp : ParseStartEndSeconds (toLower ((splitOn ' ' msg).getD 1 [])) with
        | none => left; rfl
        | some pe =>
          obtain ⟨s, e⟩ := pe
          dsimp only
          have hb := ParseStartEndSeconds_bounds hp
          by_cases h3 : (splitOn ' ' msg).length = 2
          · rw [if_pos h3]; right; exact ⟨rfl, Or.inr hb⟩
          · rw [if_neg h3]
            by_cases h4 : (splitOn ' ' msg).length > 3
            · rw [if_pos h4]; left; rfl
            · rw [if_neg h4]
              by_cases h5 : (splitOn ' ' msg).getD 2 [] ≠ audioWord
              · rw [if_pos h5]; left; rfl
              · rw [if_neg h5]; right; exact ⟨rfl, Or.inr hb⟩

/-- Witness for C7: a concrete command instantiating the invariant. -/
theorem c7_witness :
    LoadDownloadConfigFromMsg urlParseAny ("q 0:05-0:09").data =
        ⟨emptyURL, -1, -1, false, false⟩ ∨
      ((LoadDownloadConfigFromMsg urlParseAny ("q 0:05-0:09").data).ok = true ∧
        (((LoadDownloadConfigFromMsg urlParseAny ("q 0:05-0:09").data).startSecond = -1 ∧
            (LoadDownloadConfigFromMsg urlParseAny ("q 0:05-0:09").data).endSecond = -1) ∨
          (0 ≤ (LoadDownloadConfigFromMsg urlParseAny ("q 0:05-0:09").data).startSecond ∧
            (LoadDownloadConfigFromMsg urlParseAny ("q 0:05-0:09").data).startSecond <
              (LoadDownloadConfigFromMsg urlParseAny ("q 0:05-0:09").data).endSecond))) :=
  c7_result_invariant urlParseAny (("q 0:05-0:09").data)

/-- C8: on a three-token line whose first token parses as a URL and whose
second token is a valid span, the command succeeds with `audioOnly = true`
exactly when the third token is the literal `audio` (case-sensitive), and
fails on any other third token; the two-token audio form, by contrast,
matches `audio` case-insensitively. -/
theorem c8_third_token_case (urlParse : GoStr → Option GoURL) (msg msg2 : GoStr) :
    (∀ (u : GoURL) (s e : Int),
      (splitOn ' ' msg).length = 3 →
      urlParse ((splitOn ' ' msg).getD 0 []) = some u →
      ParseStartEndSeconds (toLower ((splitOn ' ' msg).getD 1 [])) = some (s, e) →
      ((splitOn ' ' msg).getD 2 [] = audioWord →
        LoadDownloadConfigFromMsg urlParse msg = ⟨u, s, e, true, true⟩) ∧
      ((splitOn ' ' msg).getD 2 [] ≠ audioWord →
        LoadDownloadConfigFromMsg urlParse msg = ⟨emptyURL, -1, -1, false, false⟩)) ∧
    (∀ u : GoURL, (splitOn ' ' msg2).length = 2 →
      toLower ((splitOn ' ' msg2).getD 1 []) = audioWord →
      urlParse ((splitOn ' ' msg2).getD 0 []) = some u →
      LoadDownloadConfigFromMsg urlParse msg2 = ⟨u, -1, -1, true, true⟩) := by
  constructor
  · intro u s e hlen hurl hp
    have hne : toLower ((splitOn ' ' msg).getD 1 []) ≠ audioWord := by
      intro hEq
      rw [hEq] at hp
      have hnone : ParseStartEndSeconds audioWord = none := by decide
      rw [hnone] at hp
      exact Option.noConfusion hp
    constructor
    · intro haud
      unfold LoadDownloadConfigFromMsg
      dsimp only
      rw [hurl]
      dsimp only
      rw [if_neg (by omega), if_neg hne, hp]
      dsimp only
      rw [if_neg (by omega), if_neg (by omega), if_neg (fun hc => hc haud)]
    · intro hnaud
      unfold LoadDownloadConfigFromMsg
      dsimp only
      rw [hurl]
      dsimp only
      rw [if_neg (by omega), if_neg hne, hp]
      dsimp only
      rw [if_neg (by omega), if_neg (by omega), if_pos hnaud]
      rfl
  · intro u h2 haud hurl
    exact Load_audio_shortcut urlParse msg2 u (by omega) haud hurl

/-- Witness for C8: `audio` as third token succeeds, `Audio` fails, and the
two-token `AUDIO` form succeeds. -/
theorem c8_witness :
    LoadDownloadConfigFromMsg urlParseAny ("u 1:10-1:15 audio").data =
      ⟨⟨("u").data⟩, 70, 75, true, true⟩ ∧
    LoadDownloadConfigFromMsg urlParseAny ("u 1:10-1:15 Audio").data =
      ⟨emptyURL, -1, -1, false, false⟩ ∧
    LoadDownloadConfigFromMsg urlParseAny ("u2 AUDIO").data =
      ⟨⟨("u2").data⟩, -1, -1, true, true⟩ := by
  have h := c8_third_token_case urlParseAny (("u 1:10-1:15 audio").data)
    (("u2 AUDIO").data)
  have h2 := c8_third_token_case urlParseAny (("u 1:10-1:15 Audio").data)
    (("u2 AUDIO").data)
  exact ⟨(h.1 ⟨("u").data⟩ 70 75 (by decide) (by decide) (by decide)).1 (by decide),
    (h2.1 ⟨("u").data⟩ 70 75 (by decide) (by decide) (by decide)).2 (by decide),
    h.2 ⟨("u2").data⟩ (by decide) (by decide) (by decide)⟩

/-- C9: a successful plan's argument list is exactly the audio flags
`-x --audio-format mp3` (when audio-only) followed by `-f 18 <url> -o <out>`,
and — given that the allocated temp name carries the `.mp4` suffix the
`gatonaranja.*.mp4` pattern guarantees — the output path ends in `.mp3` when
audio-only and in `.mp4` otherwise. -/
theorem c9_ytdlp_plan (env : GoEnv) (videoUrl : GoStr) (ao : Bool)
    (p out tmp pre : GoStr) (args : List GoStr)
    (hb : BuildYtdlpCmd env videoUrl ao = some (p, out, args))
    (ht : env.createTemp tempPattern = some tmp)
    (hpre : tmp = pre ++ mp4Ext) :
    args = (if ao = true then [flagX, flagAudioFormat, mp3Word] else []) ++
      [flagF, fmt18, videoUrl, flagO, out] ∧
    (ao = true → out = pre ++ mp3Ext) ∧
    (ao = false → out = pre ++ mp4Ext) := by
  cases hlp : env.lookPath ytdlpName with
  | none =>
    unfold BuildYtdlpCmd at hb
    rw [hlp] at hb
    exact Option.noConfusion hb
  | some yp =>
    unfold BuildYtdlpCmd at hb
    rw [hlp] at hb
    dsimp only at hb
    rw [ht] at hb
    dsimp only at hb
    by_cases hrm : env.removeOk tmp = false
    · rw [if_pos hrm] at hb; exact Option.noConfusion hb
    · rw [if_neg hrm] at hb
      cases ao with
      | false =>
        simp only [Bool.false_eq_true, if_false, Option.some.injEq,
          Prod.mk.injEq] at hb
        obtain ⟨hyp, hout, hargs⟩ := hb
        refine ⟨?_, fun hc => Bool.noConfusion hc, fun _ => by rw [← hout, hpre]⟩
        rw [← hargs, hout]
        simp [List.append_assoc]
      | true =>
        simp only [reduceIte, Option.some.injEq, Prod.mk.injEq] at hb
        obtain ⟨hyp, hout, hargs⟩ := hb
        refine ⟨?_, fun _ => ?_, fun hc => Bool.noConfusion hc⟩
        · rw [← hargs, hout]
          simp [List.append_assoc]
        · rw [← hout, hpre, show mp4Ext = '.' :: 'm' :: 'p' :: ['4'] from rfl,
            List.dropLast_append_cons]
          simp
          rfl

/-- Witness for C9: a concrete audio-only plan with its `.mp3` output. -/
theorem c9_witness :
    [flagX, flagAudioFormat, mp3Word, flagF, fmt18, urlEx, flagO,
        ("/tmp/gatonaranja.x.mp3").data] =
      (if (true : Bool) = true then [flagX, flagAudioFormat, mp3Word] else []) ++
        [flagF, fmt18, urlEx, flagO, ("/tmp/gatonaranja.x.mp3").data] ∧
    ("/tmp/gatonaranja.x.mp3").data = tmpStem ++ mp3Ext := by
  have h := c9_ytdlp_plan sampleEnv urlEx true toolPath
    (("/tmp/gatonaranja.x.mp3").data) tmpName tmpStem
    [flagX, flagAudioFormat, mp3Word, flagF, fmt18, urlEx, flagO,
      ("/tmp/gatonaranja.x.mp3").data]
    (by decide) rfl (by decide)
  exact ⟨h.1, h.2.1 rfl⟩

/-- C10: with an empty allow-list every caller is authorized; with a
non-empty allow-list a caller is authorized exactly when their id is a
member of the list. -/
theorem c10_access_policy (userId : Int) (allowList : List Int) :
    (allowList = [] → UserIsAuthorized userId allowList = true) ∧
    (allowList ≠ [] → (UserIsAuthorized userId allowList = true ↔ userId ∈ allowList)) := by
  constructor
  · intro h; subst h; rfl
  · intro h
    unfold UserIsAuthorized
    rw [if_neg (by simpa using h)]
    simp only [List.any_eq_true, decide_eq_true_eq]
    constructor
    · rintro ⟨x, hx, rfl⟩; exact hx
    · intro hx; exact ⟨userId, hx, rfl⟩

/-- Witness for C10: id 7 is authorized by the empty list, and membership
decides `[1, 5, 9]`. -/
theorem c10_witness :
    UserIsAuthorized 7 [] = true ∧
    (UserIsAuthorized 7 [1, 5, 9] = true ↔ (7 : Int) ∈ ([1, 5, 9] : List Int)) :=
  ⟨(c10_access_policy 7 []).1 rfl, (c10_access_policy 7 [1, 5, 9]).2 (by decide)⟩
